import Mathlib

/-!
Verification of the plasma shot-length detector (`shot_length` in
`plasmatools.py`).  The detector filters a (time, current) signal to the
samples with nonnegative time, builds three boolean indicator masks
(threshold straddle, one-step non-increase, eight-step non-increase, each
with a trailing-edge fallback `current <= threshold`), and returns the time
of the first index where all three masks hold, or `0.0` when none exists or
the data could not be obtained.  Floating-point values are modelled by `ℚ`;
all values appearing in the claims are exactly representable.
-/

namespace Plasmatools

/-- Numpy boolean-mask indexing `x[mask]`: keep the entries of the list whose
corresponding mask entry is `true`. -/
def applyMask : List Bool → List ℚ → List ℚ
  | true :: bs, x :: xs => x :: applyMask bs xs
  | false :: bs, _ :: xs => applyMask bs xs
  | _, _ => []

/-- `delta_prod_mask` from the source: `(Ip[:-1]-thr)*(Ip[1:]-thr) <= 0`
concatenated with `Ip[-1:] <= thr`. -/
def delta_prod_mask (Ip : List ℚ) (threshold : ℚ) : List Bool :=
  List.zipWith (fun a b => decide ((a - threshold) * (b - threshold) ≤ 0))
      (Ip.take (Ip.length - 1)) (Ip.drop 1)
    ++ (Ip.drop (Ip.length - 1)).map (fun a => decide (a ≤ threshold))

/-- `delta_1_mask` from the source: `(Ip[1:]-Ip[:-1]) <= 0` concatenated with
`Ip[-1:] <= thr`. -/
def delta_1_mask (Ip : List ℚ) (threshold : ℚ) : List Bool :=
  List.zipWith (fun a b => decide (b - a ≤ 0))
      (Ip.take (Ip.length - 1)) (Ip.drop 1)
    ++ (Ip.drop (Ip.length - 1)).map (fun a => decide (a ≤ threshold))

/-- `delta_8_mask` from the source: `(Ip[8:]-Ip[:-8]) <= 0` concatenated with
`Ip[-8:] <= thr`. -/
def delta_8_mask (Ip : List ℚ) (threshold : ℚ) : List Bool :=
  List.zipWith (fun a b => decide (b - a ≤ 0))
      (Ip.take (Ip.length - 8)) (Ip.drop 8)
    ++ (Ip.drop (Ip.length - 8)).map (fun a => decide (a ≤ threshold))

/-- The combined mask `delta_prod_mask & delta_1_mask & delta_8_mask`. -/
def cond_met_mask (Ip : List ℚ) (threshold : ℚ) : List Bool :=
  List.zipWith (fun a b => a && b)
    (List.zipWith (fun a b => a && b) (delta_prod_mask Ip threshold)
      (delta_1_mask Ip threshold))
    (delta_8_mask Ip threshold)

/-- The mask `t >= 0.0` used to filter out pre-shot samples. -/
def nonneg_mask (t : List ℚ) : List Bool :=
  t.map (fun x => decide (0 ≤ x))

/-- Lines 63-86 of the source: mask both arrays to `t >= 0`, build the three
indicator masks, and return `t[cond_met[0]]` when the combined mask holds
somewhere, otherwise `0.0`. -/
def shot_length_core (t Ip : List ℚ) (threshold : ℚ) : ℚ :=
  let Ipf := applyMask (nonneg_mask t) Ip
  let tf := applyMask (nonneg_mask t) t
  let m := cond_met_mask Ipf threshold
  let i := m.findIdx (fun b => b)
  if i < m.length then tf.getD i 0 else 0

/-- The full routine: the data source either fails (modelled `none`, covering
every exception of the `try` block) or yields the raw current samples and the
time base.  On failure the routine warns once and returns `0.0`; otherwise it
takes absolute values of the current and runs the core detector.  The second
component counts the emitted warnings. -/
def shot_length (source : Option (List ℚ × List ℚ)) (threshold : ℚ) :
    ℚ × Nat :=
  match source with
  | none => (0, 1)
  | some (IpRaw, t) => (shot_length_core t (IpRaw.map (fun x => |x|)) threshold, 0)

/-- Pointwise description of `delta_prod_mask` (indicator `A`). -/
def condA (Ip : List ℚ) (T : ℚ) (i : Nat) : Bool :=
  if i + 1 < Ip.length then
    decide ((Ip.getD i 0 - T) * (Ip.getD (i + 1) 0 - T) ≤ 0)
  else decide (Ip.getD i 0 ≤ T)

/-- Pointwise description of `delta_1_mask` (indicator `B`). -/
def condB (Ip : List ℚ) (T : ℚ) (i : Nat) : Bool :=
  if i + 1 < Ip.length then decide (Ip.getD (i + 1) 0 - Ip.getD i 0 ≤ 0)
  else decide (Ip.getD i 0 ≤ T)

/-- Pointwise description of `delta_8_mask` (indicator `C`). -/
def condC (Ip : List ℚ) (T : ℚ) (i : Nat) : Bool :=
  if i + 8 < Ip.length then decide (Ip.getD (i + 8) 0 - Ip.getD i 0 ≤ 0)
  else decide (Ip.getD i 0 ≤ T)

theorem length_delta_prod (Ip : List ℚ) (T : ℚ) :
    (delta_prod_mask Ip T).length = Ip.length := by
  simp [delta_prod_mask]

theorem length_delta_1 (Ip : List ℚ) (T : ℚ) :
    (delta_1_mask Ip T).length = Ip.length := by
  simp [delta_1_mask]

theorem length_delta_8 (Ip : List ℚ) (T : ℚ) :
    (delta_8_mask Ip T).length = Ip.length := by
  simp [delta_8_mask]

theorem length_cond_met (Ip : List ℚ) (T : ℚ) :
    (cond_met_mask Ip T).length = Ip.length := by
  simp [cond_met_mask, length_delta_prod, length_delta_1, length_delta_8]

theorem delta_prod_getD (Ip : List ℚ) (T : ℚ) (i : Nat) (hi : i < Ip.length) :
    (delta_prod_mask Ip T).getD i false = condA Ip T i := by
  have hi2 : i < (delta_prod_mask Ip T).length := by rw [length_delta_prod]; exact hi
  rw [List.getD_eq_getElem _ _ hi2]
  unfold condA
  by_cases hc : i + 1 < Ip.length
  · rw [if_pos hc]
    have hiz : i < (List.zipWith (fun a b => decide ((a - T) * (b - T) ≤ 0))
        (Ip.take (Ip.length - 1)) (Ip.drop 1)).length := by simp; omega
    simp only [delta_prod_mask]
    rw [List.getElem_append_left hiz]
    rw [List.getElem_zipWith]
    simp only [List.getElem_take, List.getElem_drop]
    rw [List.getD_eq_getElem _ _ hi, List.getD_eq_getElem _ _ hc]
    have h1 : 1 + i = i + 1 := by omega
    simp [h1]
  · rw [if_neg hc]
    simp only [delta_prod_mask]
    rw [List.getElem_append_right (by simp; omega)]
    simp only [List.getElem_map, List.getElem_drop, List.length_zipWith,
      List.length_take, List.length_drop, Nat.min_self]
    have he : Ip.length - 1 + (i - (Ip.length - 1)) = i := by omega
    rw [List.getD_eq_getElem _ _ hi]
    simp [he]

theorem delta_1_getD (Ip : List ℚ) (T : ℚ) (i : Nat) (hi : i < Ip.length) :
    (delta_1_mask Ip T).getD i false = condB Ip T i := by
  have hi2 : i < (delta_1_mask Ip T).length := by rw [length_delta_1]; exact hi
  rw [List.getD_eq_getElem _ _ hi2]
  unfold condB
  by_cases hc : i + 1 < Ip.length
  · rw [if_pos hc]
    have hiz : i < (List.zipWith (fun a b => decide (b - a ≤ 0))
        (Ip.take (Ip.length - 1)) (Ip.drop 1)).length := by simp; omega
    simp only [delta_1_mask]
    rw [List.getElem_append_left hiz]
    rw [List.getElem_zipWith]
    simp only [List.getElem_take, List.getElem_drop]
    rw [List.getD_eq_getElem _ _ hi, List.getD_eq_getElem _ _ hc]
    have h1 : 1 + i = i + 1 := by omega
    simp [h1]
  · rw [if_neg hc]
    simp only [delta_1_mask]
    rw [List.getElem_append_right (by simp; omega)]
    simp only [List.getElem_map, List.getElem_drop, List.length_zipWith,
      List.length_take, List.length_drop, Nat.min_self]
    have he : Ip.length - 1 + (i - (Ip.length - 1)) = i := by omega
    rw [List.getD_eq_getElem _ _ hi]
    simp [he]

theorem delta_8_getD (Ip : List ℚ) (T : ℚ) (i : Nat) (hi : i < Ip.length) :
    (delta_8_mask Ip T).getD i false = condC Ip T i := by
  have hi2 : i < (delta_8_mask Ip T).length := by rw [length_delta_8]; exact hi
  rw [List.getD_eq_getElem _ _ hi2]
  unfold condC
  by_cases hc : i + 8 < Ip.length
  · rw [if_pos hc]
    have hiz : i < (List.zipWith (fun a b => decide (b - a ≤ 0))
        (Ip.take (Ip.length - 8)) (Ip.drop 8)).length := by simp; omega
    simp only [delta_8_mask]
    rw [List.getElem_append_left hiz]
    rw [List.getElem_zipWith]
    simp only [List.getElem_take, List.getElem_drop]
    rw [List.getD_eq_getElem _ _ hi, List.getD_eq_getElem _ _ hc]
    have h1 : 8 + i = i + 8 := by omega
    simp [h1]
  · rw [if_neg hc]
    simp only [delta_8_mask]
    rw [List.getElem_append_right (by simp; omega)]
    simp only [List.getElem_map, List.getElem_drop, List.length_zipWith,
      List.length_take, List.length_drop, Nat.min_self]
    have he : Ip.length - 8 + (i - (Ip.length - 8)) = i := by omega
    rw [List.getD_eq_getElem _ _ hi]
    simp [he]

theorem cond_met_getD (Ip : List ℚ) (T : ℚ) (i : Nat) (hi : i < Ip.length) :
    (cond_met_mask Ip T).getD i false =
      (condA Ip T i && condB Ip T i && condC Ip T i) := by
  have h1 : i < (delta_prod_mask Ip T).length := by rw [length_delta_prod]; exact hi
  have h2 : i < (delta_1_mask Ip T).length := by rw [length_delta_1]; exact hi
  have h3 : i < (delta_8_mask Ip T).length := by rw [length_delta_8]; exact hi
  have hm : i < (cond_met_mask Ip T).length := by rw [length_cond_met]; exact hi
  rw [List.getD_eq_getElem _ _ hm]
  simp only [cond_met_mask]
  rw [List.getElem_zipWith, List.getElem_zipWith]
  rw [← delta_prod_getD Ip T i hi, ← delta_1_getD Ip T i hi, ← delta_8_getD Ip T i hi]
  rw [List.getD_eq_getElem _ _ h1, List.getD_eq_getElem _ _ h2, List.getD_eq_getElem _ _ h3]


theorem applyMask_map_self (p : ℚ → Bool) (t : List ℚ) :
    applyMask (t.map p) t = t.filter p := by
  induction t with
  | nil => rfl
  | cons x xs ih =>
    by_cases hp : p x <;> simp [applyMask, hp, ih, List.filter_cons]

theorem applyMask_nil_right (m : List Bool) : applyMask m [] = [] := by
  rcases m with _ | ⟨b, bs⟩
  · rfl
  · cases b <;> rfl

theorem applyMask_nil_of_all_false (p : ℚ → Bool) (t l : List ℚ)
    (h : ∀ x ∈ t, p x = false) : applyMask (t.map p) l = [] := by
  induction t generalizing l with
  | nil => cases l <;> rfl
  | cons x xs ih =>
    cases l with
    | nil => exact applyMask_nil_right _
    | cons y ys =>
      have hx : p x = false := h x (by simp)
      simp only [List.map_cons, hx, applyMask]
      exact ih ys (fun z hz => h z (by simp [hz]))

theorem applyMask_append (m₁ m₂ : List Bool) (l₁ l₂ : List ℚ)
    (h : m₁.length = l₁.length) :
    applyMask (m₁ ++ m₂) (l₁ ++ l₂) = applyMask m₁ l₁ ++ applyMask m₂ l₂ := by
  induction m₁ generalizing l₁ with
  | nil =>
    cases l₁ with
    | nil => simp [applyMask]
    | cons y ys => simp at h
  | cons b bs ih =>
    cases l₁ with
    | nil => simp at h
    | cons y ys =>
      cases b <;> simp [applyMask, ih ys (by simpa using h)]

theorem length_applyMask_congr (m : List Bool) (l₁ l₂ : List ℚ)
    (h : l₁.length = l₂.length) :
    (applyMask m l₁).length = (applyMask m l₂).length := by
  induction m generalizing l₁ l₂ with
  | nil => cases l₁ <;> cases l₂ <;> simp [applyMask]
  | cons b bs ih =>
    cases l₁ with
    | nil => cases l₂ with
      | nil => rfl
      | cons z zs => simp at h
    | cons y ys =>
      cases l₂ with
      | nil => simp at h
      | cons z zs =>
        cases b <;> simp [applyMask, ih ys zs (by simpa using h)]

theorem mem_applyMask (m : List Bool) (l : List ℚ) (x : ℚ)
    (h : x ∈ applyMask m l) : x ∈ l := by
  induction m generalizing l with
  | nil => cases l <;> simp [applyMask] at h
  | cons b bs ih =>
    cases l with
    | nil => simp [applyMask] at h
    | cons y ys =>
      cases b with
      | false => exact List.mem_cons_of_mem y (ih ys h)
      | true =>
        rcases List.mem_cons.mp h with h1 | h2
        · simp [h1]
        · exact List.mem_cons_of_mem y (ih ys h2)

theorem findIdx_cond_met_eq (c : List ℚ) (T : ℚ) (k : Nat) (hk : k < c.length)
    (hmet : (condA c T k && condB c T k && condC c T k) = true)
    (hprev : ∀ j, j < k → (condA c T j && condB c T j && condC c T j) = false) :
    (cond_met_mask c T).findIdx (fun b => b) = k := by
  have hk2 : k < (cond_met_mask c T).length := by rw [length_cond_met]; exact hk
  rw [List.findIdx_eq hk2]
  constructor
  · have h := cond_met_getD c T k hk
    rw [List.getD_eq_getElem _ _ hk2] at h
    simp only [h]
    exact hmet
  · intro j hj
    have hjc : j < c.length := by omega
    have hj2 : j < (cond_met_mask c T).length := by rw [length_cond_met]; exact hjc
    have h := cond_met_getD c T j hjc
    rw [List.getD_eq_getElem _ _ hj2] at h
    simp only [h]
    exact hprev j hj

theorem findIdx_cond_met_len (c : List ℚ) (T : ℚ)
    (hall : ∀ j, j < c.length → (condA c T j && condB c T j && condC c T j) = false) :
    (cond_met_mask c T).findIdx (fun b => b) = (cond_met_mask c T).length := by
  apply List.findIdx_eq_length_of_false
  intro x hx
  rcases List.mem_iff_getElem.mp hx with ⟨j, hj, hval⟩
  have hjc : j < c.length := by rw [length_cond_met] at hj; exact hj
  have h := cond_met_getD c T j hjc
  rw [List.getD_eq_getElem _ _ hj] at h
  rw [← hval, h]
  exact hall j hjc

theorem shot_length_core_found (t Ip : List ℚ) (T : ℚ) (k : Nat)
    (hk : k < (applyMask (nonneg_mask t) Ip).length)
    (hmet : (condA (applyMask (nonneg_mask t) Ip) T k &&
             condB (applyMask (nonneg_mask t) Ip) T k &&
             condC (applyMask (nonneg_mask t) Ip) T k) = true)
    (hprev : ∀ j, j < k → (condA (applyMask (nonneg_mask t) Ip) T j &&
             condB (applyMask (nonneg_mask t) Ip) T j &&
             condC (applyMask (nonneg_mask t) Ip) T j) = false) :
    shot_length_core t Ip T = (applyMask (nonneg_mask t) t).getD k 0 := by
  simp only [shot_length_core]
  rw [findIdx_cond_met_eq _ _ k hk hmet hprev]
  rw [if_pos (by rw [length_cond_met]; exact hk)]

theorem shot_length_core_zero (t Ip : List ℚ) (T : ℚ)
    (hall : ∀ j, j < (applyMask (nonneg_mask t) Ip).length →
      (condA (applyMask (nonneg_mask t) Ip) T j &&
       condB (applyMask (nonneg_mask t) Ip) T j &&
       condC (applyMask (nonneg_mask t) Ip) T j) = false) :
    shot_length_core t Ip T = 0 := by
  simp only [shot_length_core]
  rw [findIdx_cond_met_len _ _ hall]
  simp


theorem applyMask_all_nonneg (t l : List ℚ) (h : ∀ x ∈ t, (0:ℚ) ≤ x)
    (hlen : t.length = l.length) : applyMask (nonneg_mask t) l = l := by
  induction t generalizing l with
  | nil =>
    cases l with
    | nil => rfl
    | cons y ys => simp at hlen
  | cons x xs ih =>
    cases l with
    | nil => simp at hlen
    | cons y ys =>
      have hx : decide ((0:ℚ) ≤ x) = true := by simp [h x (by simp)]
      simp only [nonneg_mask, List.map_cons, hx, applyMask]
      have := ih ys (fun z hz => h z (by simp [hz])) (by simpa using hlen)
      simp only [nonneg_mask] at this
      rw [this]

theorem getD_antitone (c : List ℚ)
    (hmono : ∀ i, i + 1 < c.length → c.getD (i+1) 0 ≤ c.getD i 0)
    (i j : Nat) (hij : i ≤ j) (hj : j < c.length) :
    c.getD j 0 ≤ c.getD i 0 := by
  induction j with
  | zero =>
    have h0 : i = 0 := by omega
    simp [h0]
  | succ n ih =>
    rcases Nat.lt_or_ge i (n+1) with h | h
    · have h1 : i ≤ n := by omega
      have h2 : n < c.length := by omega
      exact le_trans (hmono n hj) (ih h1 h2)
    · have h3 : i = n + 1 := by omega
      simp [h3]

/-- C4: when the data source fails (for any reason), the detector returns `0.0`
and emits exactly one non-fatal warning instead of raising. -/
theorem data_failure_returns_zero_one_warning (T : ℚ) :
    shot_length none T = (0, 1) := rfl

/-- C7: when no sample has nonnegative time, the filtered signal is empty and
the detector returns `0.0`. -/
theorem all_negative_time_returns_zero (t Ip : List ℚ) (T : ℚ)
    (hneg : ∀ x ∈ t, x < 0) : shot_length_core t Ip T = 0 := by
  have h1 : applyMask (nonneg_mask t) Ip = [] := by
    unfold nonneg_mask
    exact applyMask_nil_of_all_false _ _ _
      (fun x hx => by simp [not_le.mpr (hneg x hx)])
  apply shot_length_core_zero
  rw [h1]
  intro j hj
  simp at hj

theorem all_negative_time_returns_zero_witness :
    shot_length_core [-1] [5] 3 = 0 :=
  all_negative_time_returns_zero [-1] [5] 3 (by norm_num)

/-- C8: when every current sample is strictly above the threshold, no indicator
index exists and the detector returns `0.0`. -/
theorem above_threshold_returns_zero (t Ip : List ℚ) (T : ℚ)
    (hlen : t.length = Ip.length) (hhigh : ∀ x ∈ Ip, T < x) :
    shot_length_core t Ip T = 0 := by
  apply shot_length_core_zero
  intro j hj
  have hmem : ∀ i, (hi : i < (applyMask (nonneg_mask t) Ip).length) →
      T < (applyMask (nonneg_mask t) Ip).getD i 0 := by
    intro i hi
    rw [List.getD_eq_getElem _ _ hi]
    exact hhigh _ (mem_applyMask _ _ _ (List.getElem_mem hi))
  have hA : condA (applyMask (nonneg_mask t) Ip) T j = false := by
    unfold condA
    by_cases hc : j + 1 < (applyMask (nonneg_mask t) Ip).length
    · rw [if_pos hc]
      have h1 := hmem j hj
      have h2 := hmem (j+1) hc
      simp only [decide_eq_false_iff_not]
      exact not_le.mpr (mul_pos (by linarith) (by linarith))
    · rw [if_neg hc]
      simp only [decide_eq_false_iff_not]
      exact not_le.mpr (hmem j hj)
  simp [hA]

theorem above_threshold_returns_zero_witness :
    shot_length_core [0, 1] [5, 6] 3 = 0 :=
  above_threshold_returns_zero [0, 1] [5, 6] 3 (by norm_num) (by norm_num)

/-- C6: at every trailing position (within 8 samples of the end of the filtered
record), the 8-step indicator is the literal test `current <= threshold`, so it
holds whenever all trailing samples are at or below the threshold, regardless of
the rest of the signal. -/
theorem trailing_delta_8_true (c : List ℚ) (T : ℚ) (i : Nat)
    (hi : i < c.length) (htrail : c.length ≤ i + 8)
    (hbelow : ∀ j, j < c.length → c.length ≤ j + 8 → c.getD j 0 ≤ T) :
    (delta_8_mask c T).getD i false = true := by
  rw [delta_8_getD c T i hi]
  unfold condC
  rw [if_neg (by omega)]
  exact decide_eq_true (hbelow i hi htrail)

theorem trailing_delta_8_true_witness :
    (delta_8_mask [200, 300, 1, 1, 1, 1, 1, 1, 1, 1] 2).getD 5 false = true :=
  trailing_delta_8_true [200, 300, 1, 1, 1, 1, 1, 1, 1, 1] 2 5 (by norm_num)
    (by norm_num)
    (by
      intro j hj h8
      simp only [List.length_cons, List.length_nil] at hj h8
      interval_cases j <;> first | omega | norm_num)

/-- C5: samples with negative time never influence the result: prepending any
equal-length pair of arrays whose times are all negative leaves the detector
output unchanged. -/
theorem negative_prefix_irrelevant (tn cn t Ip : List ℚ) (T : ℚ)
    (hlen : tn.length = cn.length) (hneg : ∀ x ∈ tn, x < 0) :
    shot_length_core (tn ++ t) (cn ++ Ip) T = shot_length_core t Ip T := by
  have hmask : nonneg_mask (tn ++ t) = nonneg_mask tn ++ nonneg_mask t := by
    simp [nonneg_mask]
  have hfalse : ∀ l : List ℚ, applyMask (nonneg_mask tn) l = [] := by
    intro l
    unfold nonneg_mask
    exact applyMask_nil_of_all_false _ _ _
      (fun x hx => by simp [not_le.mpr (hneg x hx)])
  simp only [shot_length_core, hmask]
  rw [applyMask_append _ _ _ _ (by simp [nonneg_mask, hlen]),
    applyMask_append _ _ _ _ (by simp [nonneg_mask])]
  rw [hfalse cn, hfalse tn]
  simp

theorem negative_prefix_irrelevant_witness :
    shot_length_core ([-3, -2] ++ [0]) ([900, 900] ++ [1]) 2 =
      shot_length_core [0] [1] 2 :=
  negative_prefix_irrelevant [-3, -2] [900, 900] [0] [1] 2 (by norm_num)
    (by norm_num)


/-- C9: the returned value is either `0.0`, or the timestamp of the filtered
sample at the smallest index where all three indicators hold; in that case the
timestamp is nonnegative, so the result is never the time of a pre-shot
sample. -/
theorem result_zero_or_first_met_time (t Ip : List ℚ) (T : ℚ)
    (hlen : t.length = Ip.length) :
    shot_length_core t Ip T = 0 ∨
      ∃ i, i < (applyMask (nonneg_mask t) Ip).length ∧
        (condA (applyMask (nonneg_mask t) Ip) T i &&
         condB (applyMask (nonneg_mask t) Ip) T i &&
         condC (applyMask (nonneg_mask t) Ip) T i) = true ∧
        (∀ j, j < i →
          (condA (applyMask (nonneg_mask t) Ip) T j &&
           condB (applyMask (nonneg_mask t) Ip) T j &&
           condC (applyMask (nonneg_mask t) Ip) T j) = false) ∧
        shot_length_core t Ip T = (applyMask (nonneg_mask t) t).getD i 0 ∧
        0 ≤ (applyMask (nonneg_mask t) t).getD i 0 := by
  by_cases hfound :
      (cond_met_mask (applyMask (nonneg_mask t) Ip) T).findIdx (fun b => b) <
      (cond_met_mask (applyMask (nonneg_mask t) Ip) T).length
  · right
    refine ⟨(cond_met_mask (applyMask (nonneg_mask t) Ip) T).findIdx (fun b => b),
      ?_, ?_, ?_, ?_, ?_⟩
    · rw [← length_cond_met (applyMask (nonneg_mask t) Ip) T]
      exact hfound
    · have hic : (cond_met_mask (applyMask (nonneg_mask t) Ip) T).findIdx
          (fun b => b) < (applyMask (nonneg_mask t) Ip).length := by
        rw [← length_cond_met (applyMask (nonneg_mask t) Ip) T]
        exact hfound
      have h := cond_met_getD (applyMask (nonneg_mask t) Ip) T _ hic
      rw [List.getD_eq_getElem _ _ hfound] at h
      rw [← h]
      have hfi := @List.findIdx_getElem _ (fun b => b)
        (cond_met_mask (applyMask (nonneg_mask t) Ip) T) hfound
      simpa using hfi
    · intro j hj
      have hjc : j < (applyMask (nonneg_mask t) Ip).length := by
        have := @List.findIdx_le_length _ (fun b => b)
          (cond_met_mask (applyMask (nonneg_mask t) Ip) T)
        rw [← length_cond_met (applyMask (nonneg_mask t) Ip) T]
        omega
      have hj2 : j < (cond_met_mask (applyMask (nonneg_mask t) Ip) T).length := by
        rw [length_cond_met]; exact hjc
      have h := cond_met_getD (applyMask (nonneg_mask t) Ip) T _ hjc
      rw [List.getD_eq_getElem _ _ hj2] at h
      rw [← h]
      have hni := @List.not_of_lt_findIdx _ (fun b => b)
        (cond_met_mask (applyMask (nonneg_mask t) Ip) T) j hj
      simpa using hni
    · simp only [shot_length_core]
      rw [if_pos hfound]
    · have hic : (cond_met_mask (applyMask (nonneg_mask t) Ip) T).findIdx
          (fun b => b) < (applyMask (nonneg_mask t) t).length := by
        rw [length_applyMask_congr (nonneg_mask t) t Ip hlen,
          ← length_cond_met (applyMask (nonneg_mask t) Ip) T]
        exact hfound
      have hall : ∀ x ∈ applyMask (nonneg_mask t) t, (0:ℚ) ≤ x := by
        intro x hx
        rw [nonneg_mask, applyMask_map_self] at hx
        simpa using List.of_mem_filter hx
      rw [List.getD_eq_getElem _ _ hic]
      exact hall _ (List.getElem_mem hic)
  · left
    simp only [shot_length_core]
    rw [if_neg hfound]

theorem result_zero_or_first_met_time_witness :
    shot_length_core [0] [1] 2 = 0 ∨
      ∃ i, i < (applyMask (nonneg_mask [0]) [1]).length ∧
        (condA (applyMask (nonneg_mask [0]) [1]) 2 i &&
         condB (applyMask (nonneg_mask [0]) [1]) 2 i &&
         condC (applyMask (nonneg_mask [0]) [1]) 2 i) = true ∧
        (∀ j, j < i →
          (condA (applyMask (nonneg_mask [0]) [1]) 2 j &&
           condB (applyMask (nonneg_mask [0]) [1]) 2 j &&
           condC (applyMask (nonneg_mask [0]) [1]) 2 j) = false) ∧
        shot_length_core [0] [1] 2 = (applyMask (nonneg_mask [0]) [0]).getD i 0 ∧
        0 ≤ (applyMask (nonneg_mask [0]) [0]).getD i 0 :=
  result_zero_or_first_met_time [0] [1] 2 rfl

/-- C10: a successful detection whose reported time is `0.0` is
indistinguishable from the sentinel: on `time = [0]`, `current = [1]`,
`threshold = 2` the combined indicator holds at the first (and smallest)
filtered index, whose timestamp is `0.0`, so the detector returns exactly the
value it also returns when the data source fails. -/
theorem detection_at_time_zero_equals_sentinel :
    (condA (applyMask (nonneg_mask [0]) [1]) 2 0 &&
     condB (applyMask (nonneg_mask [0]) [1]) 2 0 &&
     condC (applyMask (nonneg_mask [0]) [1]) 2 0) = true ∧
    (applyMask (nonneg_mask [0]) [0]).getD 0 0 = 0 ∧
    shot_length_core [0] [1] 2 = 0 ∧
    shot_length_core [0] [1] 2 = (shot_length none 2).1 := by
  refine ⟨?_, ?_, ?_, ?_⟩ <;>
    norm_num [shot_length_core, shot_length, applyMask, nonneg_mask,
      cond_met_mask, delta_prod_mask, delta_1_mask, delta_8_mask, condA, condB,
      condC, List.findIdx_cons]


/-- C1 counterexample: on the spec scenario the detector returns `1`, not `2`:
after filtering, the indicator triple already holds at filtered index 1 (the
last sample above threshold, which straddles the crossing), not at index 2. -/
theorem spec_scenario_result_is_not_two :
    shot_length_core [-1, 0, 1, 2, 3, 4, 5, 6, 7, 8, 9]
      [200000, 200000, 200000, 100000, 100000, 100000, 100000, 100000, 100000,
        100000, 100000] 120000 = 1 ∧ (1 : ℚ) ≠ 2 := by
  constructor
  · norm_num [shot_length_core, applyMask, nonneg_mask, cond_met_mask,
      delta_prod_mask, delta_1_mask, delta_8_mask, List.findIdx_cons]
  · norm_num

/-- C1 (amended): on the spec scenario the detector returns `1`: the sign-change
indicator fires at the straddling sample (the last one above threshold), one
grid step before the first sample at which the current is below threshold. -/
theorem spec_scenario_returns_one :
    shot_length_core [-1, 0, 1, 2, 3, 4, 5, 6, 7, 8, 9]
      [200000, 200000, 200000, 100000, 100000, 100000, 100000, 100000, 100000,
        100000, 100000] 120000 = 1 := by
  norm_num [shot_length_core, applyMask, nonneg_mask, cond_met_mask,
    delta_prod_mask, delta_1_mask, delta_8_mask, List.findIdx_cons]

/-- C2 counterexample: `time = [0,…,9]`, `current = [13,12,11,9,8,7,6,5,4,3]`,
`threshold = 10` is monotonically decreasing, starts above the threshold, drops
below at index 3 (time `3`, grid step `1`) and stays below, yet the detector
returns `9`, six grid steps after the first below-threshold sample. -/
theorem monotone_crossing_counterexample :
    shot_length_core [0, 1, 2, 3, 4, 5, 6, 7, 8, 9]
      [13, 12, 11, 9, 8, 7, 6, 5, 4, 3] 10 = 9 ∧
    ([13, 12, 11, 9, 8, 7, 6, 5, 4, 3] : List ℚ).getD 3 0 ≤ 10 ∧
    10 < ([13, 12, 11, 9, 8, 7, 6, 5, 4, 3] : List ℚ).getD 2 0 ∧
    ¬ ((9 : ℚ) - 3 ≤ 1) := by
  refine ⟨?_, by norm_num, by norm_num, by norm_num⟩
  norm_num [shot_length_core, applyMask, nonneg_mask, cond_met_mask,
    delta_prod_mask, delta_1_mask, delta_8_mask, List.findIdx_cons]

/-- C2 (amended): for a monotonically non-increasing filtered current that
starts above the threshold and first reaches it at index `k`, the detector
returns the time of sample `k-1` — one sampling-grid step before the first
below-threshold sample — provided the crossing happens at least 8 samples
before the end of the record (`k + 8 ≤ N`); when the crossing falls within the
last 8 samples the result can instead be up to 6 grid steps late. -/
theorem monotone_crossing_detected_one_step_early
    (t Ip : List ℚ) (T : ℚ) (k : Nat)
    (hmono : ∀ i, i + 1 < (applyMask (nonneg_mask t) Ip).length →
      (applyMask (nonneg_mask t) Ip).getD (i+1) 0 ≤
      (applyMask (nonneg_mask t) Ip).getD i 0)
    (hk : k < (applyMask (nonneg_mask t) Ip).length)
    (hkpos : 0 < k)
    (hbelow : (applyMask (nonneg_mask t) Ip).getD k 0 ≤ T)
    (habove : ∀ j, j < k → T < (applyMask (nonneg_mask t) Ip).getD j 0)
    (hroom : k + 8 ≤ (applyMask (nonneg_mask t) Ip).length) :
    shot_length_core t Ip T = (applyMask (nonneg_mask t) t).getD (k-1) 0 := by
  apply shot_length_core_found
  · omega
  · have h1 : k - 1 + 1 = k := by omega
    have hA : condA (applyMask (nonneg_mask t) Ip) T (k-1) = true := by
      unfold condA
      rw [h1, if_pos (by omega)]
      have ha := habove (k-1) (by omega)
      simp only [decide_eq_true_eq]
      nlinarith [mul_nonneg (le_of_lt (sub_pos.mpr ha)) (sub_nonneg.mpr hbelow)]
    have hB : condB (applyMask (nonneg_mask t) Ip) T (k-1) = true := by
      unfold condB
      rw [h1, if_pos (by omega)]
      have hm := hmono (k-1) (by omega)
      rw [h1] at hm
      simp only [decide_eq_true_eq]
      linarith
    have hC : condC (applyMask (nonneg_mask t) Ip) T (k-1) = true := by
      unfold condC
      rw [if_pos (by omega)]
      have hm := getD_antitone (applyMask (nonneg_mask t) Ip) hmono
        (k-1) (k-1+8) (by omega) (by omega)
      simp only [decide_eq_true_eq]
      linarith
    simp [hA, hB, hC]
  · intro j hj
    have hA : condA (applyMask (nonneg_mask t) Ip) T j = false := by
      unfold condA
      rw [if_pos (by omega)]
      have ha1 := habove j (by omega)
      have ha2 := habove (j+1) (by omega)
      simp only [decide_eq_false_iff_not]
      exact not_le.mpr (mul_pos (by linarith) (by linarith))
    simp [hA]

theorem monotone_crossing_detected_one_step_early_witness :
    shot_length_core [0, 1, 2, 3, 4, 5, 6, 7, 8]
      [13, 9, 8, 7, 6, 5, 4, 3, 2] 10 =
      (applyMask (nonneg_mask [0, 1, 2, 3, 4, 5, 6, 7, 8])
        [0, 1, 2, 3, 4, 5, 6, 7, 8]).getD 0 0 :=
  monotone_crossing_detected_one_step_early
    [0, 1, 2, 3, 4, 5, 6, 7, 8] [13, 9, 8, 7, 6, 5, 4, 3, 2] 10 1
    (by
      intro i hi
      norm_num [applyMask, nonneg_mask] at hi ⊢
      have hi2 : i < 8 := by omega
      interval_cases i <;> norm_num)
    (by norm_num [applyMask, nonneg_mask])
    (by norm_num)
    (by norm_num [applyMask, nonneg_mask])
    (by
      intro j hj
      interval_cases j
      norm_num [applyMask, nonneg_mask])
    (by norm_num [applyMask, nonneg_mask])


/-- C3 counterexample: `time = [0,…,11]`, `current = [2,2,2,1,2,2,2,2,2,2,2,2]`,
`threshold = 3/2` has a single-sample dip below threshold at index 3 followed by
an immediate return to the sustained high level `2`, yet the detector returns
`2` (the time of the sample before the dip), not `0.0`: the flat level makes
the 8-step non-increase test succeed (`2 - 2 ≤ 0`). -/
theorem flat_transient_dip_counterexample :
    shot_length_core [0, 1, 2, 3, 4, 5, 6, 7, 8, 9, 10, 11]
      [2, 2, 2, 1, 2, 2, 2, 2, 2, 2, 2, 2] (3/2) = 2 ∧
    ¬ ((2 : ℚ) = 0) ∧ (1 : ℚ) ≤ 3/2 ∧ (3/2 : ℚ) < 2 := by
  refine ⟨?_, by norm_num, by norm_num, by norm_num⟩
  norm_num [shot_length_core, applyMask, nonneg_mask, cond_met_mask,
    delta_prod_mask, delta_1_mask, delta_8_mask, List.findIdx_cons]

/-- C3 (amended): a single-sample dip below threshold at filtered index `d`
(current strictly above threshold everywhere else) is rejected — the detector
returns `0.0` — provided the dip occurs at least 8 samples before the end of
the record and the current 8 samples after the pre-dip sample is strictly
larger than the pre-dip current (the 8-step lookahead sees an increase); when
the post-dip level merely equals the pre-dip level, the dip is reported
instead of rejected. -/
theorem transient_dip_rejected
    (t Ip : List ℚ) (T : ℚ) (d : Nat)
    (hd1 : 1 ≤ d)
    (hd8 : d + 8 ≤ (applyMask (nonneg_mask t) Ip).length)
    (hdip : (applyMask (nonneg_mask t) Ip).getD d 0 ≤ T)
    (hhigh : ∀ i, i < (applyMask (nonneg_mask t) Ip).length → i ≠ d →
      T < (applyMask (nonneg_mask t) Ip).getD i 0)
    (hjump : (applyMask (nonneg_mask t) Ip).getD (d-1) 0 <
             (applyMask (nonneg_mask t) Ip).getD (d+7) 0) :
    shot_length_core t Ip T = 0 := by
  apply shot_length_core_zero
  intro j hj
  by_cases hjd : j = d - 1
  · have hC : condC (applyMask (nonneg_mask t) Ip) T j = false := by
      unfold condC
      subst hjd
      have h8 : d - 1 + 8 = d + 7 := by omega
      rw [h8, if_pos (by omega)]
      simp only [decide_eq_false_iff_not]
      exact not_le.mpr (by linarith)
    simp [hC]
  · by_cases hjd2 : j = d
    · have hB : condB (applyMask (nonneg_mask t) Ip) T j = false := by
        unfold condB
        subst hjd2
        rw [if_pos (by omega)]
        have hup := hhigh (j+1) (by omega) (by omega)
        simp only [decide_eq_false_iff_not]
        exact not_le.mpr (by linarith)
      simp [hB]
    · have hA : condA (applyMask (nonneg_mask t) Ip) T j = false := by
        unfold condA
        by_cases hc : j + 1 < (applyMask (nonneg_mask t) Ip).length
        · rw [if_pos hc]
          have ha1 := hhigh j hj (by omega)
          have ha2 := hhigh (j+1) hc (by omega)
          simp only [decide_eq_false_iff_not]
          exact not_le.mpr (mul_pos (by linarith) (by linarith))
        · rw [if_neg hc]
          have ha := hhigh j hj (by omega)
          simp only [decide_eq_false_iff_not]
          exact not_le.mpr ha
      simp [hA]

theorem transient_dip_rejected_witness :
    shot_length_core [0, 1, 2, 3, 4, 5, 6, 7, 8]
      [5, 1, 5, 6, 7, 8, 9, 10, 11] 3 = 0 :=
  transient_dip_rejected [0, 1, 2, 3, 4, 5, 6, 7, 8]
    [5, 1, 5, 6, 7, 8, 9, 10, 11] 3 1
    (by norm_num)
    (by norm_num [applyMask, nonneg_mask])
    (by norm_num [applyMask, nonneg_mask])
    (by
      intro i hi hne
      norm_num [applyMask, nonneg_mask] at hi ⊢
      interval_cases i <;> simp_all <;> norm_num)
    (by norm_num [applyMask, nonneg_mask])

end Plasmatools
